import Mathlib

/-!
Verification of the karaoke player sketch (TEJ3M-Summative.ino).

The development shallowly embeds the synchronization core of the sketch:
the tempo clock `eighthMs`, the lyric indexer `getLineInfoFromNotesPlayed`,
the line extractor `getLyricLine`, and the playback engine `playSong`
(modelled as a trace of sink events).  Machine integers are modelled with
`Nat`/`Int` (no value in the sketch approaches a word boundary), C strings
by `List Char` ended at the first NUL, and the single-precision float
multiplication by `GATE = 0.93f` exactly, via round-to-nearest-even on
24-bit significands.
-/

namespace Karaoke

/-- NUL character terminating C strings. -/
def nulChar : Char := Char.ofNat 0

/-- Carriage-return character, skipped by the extractor. -/
def crChar : Char := Char.ofNat 13

/-- Newline character, the lyric line delimiter. -/
def nlChar : Char := Char.ofNat 10

/-- Apostrophe character (used inside lyric text). -/
def apoChar : Char := Char.ofNat 39

/-- Content of a C string buffer: the characters before the first NUL. -/
def cString (buf : List Char) : List Char :=
  buf.takeWhile (fun c => c ≠ nulChar)

/-- Characters of the flash lyric string that the extractor actually
examines: everything up to the first NUL, with carriage returns removed. -/
def effChars : List Char → List Char
  | [] => []
  | c :: rest =>
      if c = nulChar then []
      else if c = crChar then effChars rest
      else c :: effChars rest

/-- Number of newline delimiters in a character list. -/
def countNL : List Char → Nat
  | [] => 0
  | c :: rest => (if c = nlChar then 1 else 0) + countNL rest

/-- Characters of the first lyric line (up to the first newline). -/
def lineHead : List Char → List Char
  | [] => []
  | c :: rest => if c = nlChar then [] else c :: lineHead rest

/-- Remainder of the text after the first newline (empty if none). -/
def afterNL : List Char → List Char
  | [] => []
  | c :: rest => if c = nlChar then rest else afterNL rest

/-- Characters of the `k`-th lyric line of a (clean) text. -/
def lineAt : Nat → List Char → List Char
  | 0, cs => lineHead cs
  | k + 1, cs => lineAt k (afterNL cs)

/-- Predicate: the character list holds neither NUL nor carriage return. -/
def cleanChars (cs : List Char) : Prop :=
  ∀ c ∈ cs, c ≠ nulChar ∧ c ≠ crChar

instance (cs : List Char) : Decidable (cleanChars cs) := by
  unfold cleanChars; infer_instance

/-- Buffer write `out[pos] = c` (out-of-range writes are separately proved
not to occur within the tracked region). -/
def bufSet (buf : List Char) (pos : Nat) (c : Char) : List Char :=
  buf.set pos c

/-- Scanning loop of `getLyricLine`, translated statement by statement from
the source.  Arguments: target line index, buffer size, remaining flash
characters, current line counter `curLine`, write position `pos`, buffer. -/
def glScan (target sz : Nat) : List Char → Nat → Nat → List Char → Bool × List Char
  | [], curLine, pos, buf =>
      if curLine = target then (true, bufSet buf pos nulChar)
      else (false, bufSet buf 0 nulChar)
  | c :: rest, curLine, pos, buf =>
      if c = nulChar then
        (if curLine = target then (true, bufSet buf pos nulChar)
         else (false, bufSet buf 0 nulChar))
      else if c = crChar then glScan target sz rest curLine pos buf
      else if c = nlChar then
        (if curLine = target then (true, bufSet buf pos nulChar)
         else glScan target sz rest (curLine + 1) 0 buf)
      else if curLine = target ∧ pos < sz - 1 then
        glScan target sz rest curLine (pos + 1) (bufSet buf pos c)
      else glScan target sz rest curLine pos buf

/-- Body of `getLyricLine` for an already-fetched flash pointer (`none`
models a NULL pointer).  Mirrors the source: a zero `outSize` returns
`false` without touching the buffer; otherwise `out[0]` is cleared and the
scan runs. -/
def extractLine (lyr : Option (List Char)) (target sz : Nat)
    (buf : List Char) : Bool × List Char :=
  if sz = 0 then (false, buf)
  else
    match lyr with
    | none => (false, bufSet buf 0 nulChar)
    | some cs => glScan target sz cs 0 0 (bufSet buf 0 nulChar)

/-- Lyrics of song 0 (Country Roads), as stored in flash. -/
def lyrics1 : List Char :=
  ("Almost heaven,\nWest Virginia,\nBlue Ridge Mtns,\nShenandoah Rvr\nLife".toList
    ++ [apoChar]
    ++ "s old there,\nolder than trees,\nYounger than mtn\ngrowin like brz\nCountry roads,\ntake me home,\nTo the place\nI belong,\nWest Virginia,\nmountain mama,\nTake me home,\ncountry roads.".toList)

/-- Lyrics of song 1 (Baa Baa Black Sheep), as stored in flash. -/
def lyrics2 : List Char :=
  "Baa baa\nblack sheep\nhave you\nany wool?\nYes sir\nyes sir\nthree bags full\nOne for the\nmaster\nAnd one for\nthe dame\nAnd one for\nthe little boy\nwho lives down\nthe lane\nBaa baa\nblack sheep\nhave you\nany wool?\nYes sir\nyes sir\nthree bags full".toList

/-- Lyrics of song 2 (Itsy Bitsy Spider), as stored in flash. -/
def lyrics3 : List Char :=
  "The itsy bitsy\nspider\nclimbed up the\nwater spout\nDown came the\nrain and\nwashed the\nspider out\nOut came the\nsun and\ndried up all\nthe rain\nAnd the itsy\nbitsy spider\nclimbed up the\nspout again".toList

/-- Flash pointer selector for the lyric blobs (NULL for unknown songs). -/
def getLyricsPtr (songIdx : Nat) : Option (List Char) :=
  match songIdx with
  | 0 => some lyrics1
  | 1 => some lyrics2
  | 2 => some lyrics3
  | _ => none

/-- The source function `getLyricLine(songIdx, lineIndex, out, outSize)`. -/
def getLyricLine (songIdx target sz : Nat) (buf : List Char) : Bool × List Char :=
  extractLine (getLyricsPtr songIdx) target sz buf

/-- Existence of a lyric line: the text (up to NUL, ignoring carriage
returns) has an explicitly delimited or final unterminated line with that
index exactly when the index is at most the number of newline delimiters. -/
def lineExists (lyr : Option (List Char)) (target : Nat) : Prop :=
  match lyr with
  | none => False
  | some cs => target ≤ countNL (effChars cs)

instance (lyr : Option (List Char)) (target : Nat) :
    Decidable (lineExists lyr target) := by
  unfold lineExists; cases lyr <;> infer_instance

/-- Search loop of `getLineInfoFromNotesPlayed`: walk the per-line note
counts with running remainder `tmp`, stopping at the zero terminator or at
the first entry whose subtraction drives `tmp` negative; `idx` is the
current `lineIndex`.  An empty list models exhausting the `MAX_LINES`
bound. -/
def locLoop : List Nat → Int → Nat → Nat
  | [], _, idx => idx
  | c :: rest, tmp, idx =>
      if c = 0 then idx
      else if tmp - (c : Int) < 0 then idx
      else locLoop rest (tmp - (c : Int)) (idx + 1)

/-- Sum of the first `k` line-note counts, as the source computes
`startNote`. -/
def prefixSum (counts : List Nat) (k : Nat) : Int :=
  ((counts.take k).sum : Nat)

/-- The source function `getLineInfoFromNotesPlayed`, returning
`(lineIndex, lineStartNote, lineNoteCount)`.  The count read
`lineNoteCounts[songIdx][lineIndex]` is modelled with default 0; the
claims all assume a zero terminator is present, which keeps the read in
bounds in the C original. -/
def getLineInfoFromNotesPlayed (counts : List Nat) (notesPlayed totalNotes : Int) :
    Nat × Int × Int :=
  let lineIndex := locLoop counts notesPlayed 0
  let startNote := prefixSum counts lineIndex
  let count0 : Int := (counts.getD lineIndex 0 : Nat)
  let count : Int :=
    if count0 = 0 then
      (if totalNotes - startNote ≤ 0 then 1 else totalNotes - startNote)
    else count0
  (lineIndex, startNote, count)

/-- Stopping condition of the spec subtraction algorithm at index `i`: the
zero terminator is reached there, or the running remainder
`notesPlayed - (counts summed through i)` has become negative. -/
def stopsAt (counts : List Nat) (n : Int) (i : Nat) : Prop :=
  counts.getD i 0 = 0 ∨ n - prefixSum counts (i + 1) < 0

instance (counts : List Nat) (n : Int) (i : Nat) : Decidable (stopsAt counts n i) := by
  unfold stopsAt; infer_instance

/-- Entries of the line-note-count row before the zero terminator. -/
def definedPrefix : List Nat → List Nat
  | [] => []
  | c :: rest => if c = 0 then [] else c :: definedPrefix rest

/-- Number of defined lyric lines: entries before the zero terminator. -/
def definedLines (counts : List Nat) : Nat :=
  (definedPrefix counts).length

/-- Sum of the line-note counts before the zero terminator. -/
def definedSum (counts : List Nat) : Int :=
  (((definedPrefix counts).sum : Nat) : Int)

/-- The source tempo clock `eighthMs`: nested truncating division on
unsigned longs. -/
def eighthMs (bpm : Nat) : Nat :=
  60000 / bpm / 2

/-- Duration of one whole (quarter) beat as the spec defines it:
`wholeBeatDuration(tempo) = 60000 / tempo` (floor division). -/
def wholeBeatDuration (tempo : Nat) : Nat :=
  60000 / tempo

/-- Bit length of a natural number below `2^64`: the number of exponents
`b < 64` with `2^b ≤ n` (so 0 for 0, and `log2 n + 1` otherwise). -/
def bitLen (n : Nat) : Nat :=
  ((List.range 64).filter (fun b => 2 ^ b ≤ n)).length

/-- Round-to-nearest-even of a natural number to a 24-bit significand:
the value of the nearest IEEE-754 single-precision float.  Used to model
the float conversions and the multiplication by `GATE` exactly (all
quantities involved are far below `2^64`). -/
def roundSig (n : Nat) : Nat :=
  let b := bitLen n
  if b ≤ 24 then n
  else
    let s := b - 24
    let q := n / 2 ^ s
    let r := n % 2 ^ s
    let half := 2 ^ (s - 1)
    (if half < r then q + 1 else if r < half then q else q + q % 2) * 2 ^ s

/-- Significand of the float literal `0.93f`: the nearest single-precision
float to 0.93 is `15602811 / 2^24`. -/
def gateSig : Nat := 15602811

/-- Exact model of `(unsigned long)((float)t * GATE)`: convert `t` to
float (`roundSig t`), multiply exactly by `GATE = gateSig / 2^24`, round
the product to the nearest float, truncate toward zero. -/
def fmul93 (t : Nat) : Nat :=
  roundSig (roundSig t * gateSig) / 2 ^ 24

/-- Floor of `t * 0.93` in exact rational arithmetic, the split the spec
prescribes (`onTime = floor(noteTotal * gateFraction)`). -/
def gateFloor (t : Nat) : Nat :=
  t * 93 / 100

/-- Total duration of a note in ms: `durU * unitMs`, clamped to 1 if zero. -/
def noteTotalMs (durU unitMs : Nat) : Nat :=
  let t := durU * unitMs
  if t = 0 then 1 else t

/-- On-portion of a note (`noteOnMs` in the source). -/
def noteOnOf (t : Nat) : Nat := fmul93 t

/-- Off-portion of a note (`noteOffMs = noteTotal - noteOnMs`). -/
def noteOffOf (t : Nat) : Nat := t - noteOnOf t

/-- Defensive LED index clamp from the playback engine:
`if (li > 4) li = 4`. -/
def ledClamp (li : Nat) : Nat :=
  if li > 4 then 4 else li

/-- Width of every song row (`MAX_NOTES`). -/
def maxNotes : Nat := 65

/-- Per-song true lengths (`melodyLen`). -/
def melodyLen : List Nat := [65, 42, 48]

/-- Per-song tempos in BPM (`tempoBPM`). -/
def tempoBPM : List Int := [45, 96, 66]

/-- Pitch rows (`melodyNotes`), frequencies in Hz, 0 = rest.  Songs 0 and
2 have 64 initializers in the source; C++ zero-fills the final slot. -/
def melodyNotes : List (List Nat) :=
  [ ([494, 494, 494, 440,
     392, 392, 440, 494,
     494, 494, 494, 440,
     392, 392, 440, 494, 440, 392,
     494, 494, 494, 440,
     392, 392, 440, 494, 587,
     294, 294, 294, 330, 494, 494,
     440, 392, 440, 494, 392,
     587, 494, 440,
     392, 440, 392,
     392, 440, 494,
     587, 659, 587,
     587, 587, 659, 494,
     494, 440, 392, 392,
     392, 440, 494,
     440, 392, 392] ++ [0]),
    [262, 262, 392, 392, 440, 440, 392,
     349, 349, 330, 330, 294, 294, 262,
     392, 392, 349, 349, 330, 330, 294,
     392, 392, 349, 349, 330, 330, 294,
     262, 262, 392, 392, 440, 440, 392,
     349, 349, 330, 330, 294, 294, 262]
      ++ List.replicate 23 0,
    ([392, 523, 523, 523, 587, 659, 659,
      659, 587, 523, 587, 659, 523,
      659, 659, 698, 784,
      784, 698, 659, 698, 784, 659,
      523, 523, 587, 659,
      659, 587, 523, 587, 659, 523,
      392, 392, 523, 523, 523, 587, 659, 659,
      659, 587, 523, 587, 659, 523]
      ++ List.replicate 17 0) ++ [0] ]

/-- Duration rows (`durationUnits`), in eighth-note units.  Songs 0 and 2
have 64 initializers in the source; C++ zero-fills the final slot. -/
def durationUnits : List (List Nat) :=
  [ ([1, 1, 1, 2,
     1, 1, 1, 2,
     1, 1, 1, 2,
     1, 1, 1, 1, 1, 2,
     1, 1, 1, 2,
     1, 1, 1, 1, 2,
     1, 1, 1, 1, 1, 2,
     1, 1, 1, 1, 2,
     1, 1, 2,
     1, 1, 2,
     1, 1, 2,
     1, 1, 2,
     1, 1, 1, 2,
     1, 1, 1, 2,
     1, 1, 2,
     1, 1, 4] ++ [0]),
    [2, 2, 2, 2, 2, 2, 4,
     2, 2, 2, 2, 2, 2, 4,
     2, 2, 2, 2, 2, 2, 4,
     2, 2, 2, 2, 2, 2, 4,
     2, 2, 2, 2, 2, 2, 4,
     2, 2, 2, 2, 2, 2, 4]
      ++ (List.replicate 6 1 ++ List.replicate 6 1
          ++ List.replicate 6 1 ++ List.replicate 5 1),
    ([1, 1, 1, 1, 1, 1, 2,
      1, 1, 1, 1, 1, 2,
      1, 1, 1, 2,
      1, 1, 1, 1, 1, 2,
      1, 1, 1, 2,
      1, 1, 1, 1, 1, 2,
      1, 1, 1, 1, 1, 1, 1, 2,
      1, 1, 1, 1, 1, 4]
      ++ List.replicate 17 1) ++ [0] ]

/-- LED index rows (`ledIndex`).  Songs 0 and 2 have 64 initializers in
the source; C++ zero-fills the final slot. -/
def ledIndex : List (List Nat) :=
  [ ([2, 2, 2, 1,
     0, 0, 1, 2,
     2, 2, 2, 1,
     0, 0, 1, 2, 1, 0,
     2, 2, 2, 1,
     0, 0, 1, 2, 3,
     3, 3, 3, 4, 2, 2,
     1, 0, 1, 2, 0,
     3, 2, 1,
     0, 1, 0,
     0, 1, 2,
     3, 4, 3,
     3, 3, 4, 2,
     2, 1, 0, 0,
     0, 1, 2,
     1, 0, 0] ++ [0]),
    [0, 0, 1, 1, 2, 2, 1,
     3, 3, 4, 4, 0, 0, 0,
     1, 1, 3, 3, 4, 4, 0,
     1, 1, 3, 3, 4, 4, 0,
     0, 0, 1, 1, 2, 2, 1,
     3, 3, 4, 4, 0, 0, 0]
      ++ List.replicate 23 0,
    ([0, 0, 0, 0, 1, 2, 2,
      2, 1, 0, 1, 2, 0,
      2, 2, 3, 4,
      4, 3, 2, 3, 4, 2,
      0, 0, 1, 2,
      2, 1, 0, 1, 2, 0,
      4, 4, 0, 0, 0, 1, 2, 2,
      2, 1, 0, 1, 2, 0]
      ++ List.replicate 17 0) ++ [0] ]

/-- Line-note-count rows (`lineNoteCounts`), each zero-terminated and
zero-filled by C++ to `MAX_LINES = 30` entries. -/
def lineNoteCounts : List (List Nat) :=
  [ [4, 4, 4, 6, 4, 5, 6, 5,
     3, 3, 3, 3, 4, 4, 3, 4,
     0] ++ List.replicate 13 0,
    [2, 2, 2, 1, 2, 2, 3,
     2, 2,
     2, 2,
     2, 2,
     2, 2,
     2, 2, 2, 1, 2, 2, 3,
     0] ++ List.replicate 7 0,
    [5, 2, 3, 3,
     3, 2, 2, 2,
     3, 2, 2, 3,
     4, 4, 3, 4,
     0] ++ List.replicate 13 0 ]

/-- One song row of the catalog, the data `playSong(songIdx)` reads. -/
structure Song where
  notes : List Nat
  durations : List Nat
  leds : List Nat
  len : Int
  bpm : Int
  lyrics : Option (List Char)
  lineCounts : List Nat
  banner : Option String
deriving DecidableEq

/-- Banner text for row 1 of the "Now Playing" screen; the source prints
one only for the three known indices. -/
def bannerOf (songIdx : Nat) : Option String :=
  if songIdx = 0 then some "Country Roads"
  else if songIdx = 1 then some "Baa Baa Sheep"
  else if songIdx = 2 then some "Itsy Spider"
  else none

/-- The catalog row for a song index, as read by `playSong`. -/
def songOf (songIdx : Nat) : Song :=
  { notes := melodyNotes.getD songIdx []
    durations := durationUnits.getD songIdx []
    leds := ledIndex.getD songIdx []
    len := (melodyLen.getD songIdx 0 : Nat)
    bpm := tempoBPM.getD songIdx 0
    lyrics := getLyricsPtr songIdx
    lineCounts := lineNoteCounts.getD songIdx []
    banner := bannerOf songIdx }

/-- Commands sent to the output sinks (display, LEDs, tone, serial) and
the blocking delays, in program order. -/
inductive Ev where
  | lcdClear : Ev
  | lcdRow : Nat → List Char → Ev
  | ledWrite : Nat → Bool → Ev
  | toneStart : Nat → Ev
  | toneStop : Ev
  | serialLine : String → Ev
  | delayMs : Nat → Ev
deriving DecidableEq

/-- Text a row shows after `lcdPrintFixed`: at most 16 characters of the
argument, padded with spaces to exactly 16. -/
def lcdFixed (text : List Char) : List Char :=
  text.take 16 ++ List.replicate (16 - (text.take 16).length) (Char.ofNat 32)

/-- Events of `allLEDsOff()`: write LOW to each of the five LEDs. -/
def allLEDsOffEv : List Ev :=
  (List.range 5).map (fun i => Ev.ledWrite i false)

/-- State of the lyric display after one pass of the "only update the LCD
when the line changes" logic, together with the display events emitted. -/
structure LcdView where
  evs : List Ev
  top : List Char
  bot : List Char
  last : Int
deriving DecidableEq

/-- Lyric-display portion of the per-note loop body: refresh the two rows
only when the indexed line differs from `lastLineDisplayed`. -/
def lcdUpdate (s : Song) (notesPlayed : Nat) (lastLine : Int)
    (top bot : List Char) : LcdView :=
  let info := getLineInfoFromNotesPlayed s.lineCounts (notesPlayed : Int) s.len
  if (info.1 : Int) ≠ lastLine then
    let e1 := extractLine s.lyrics info.1 17 top
    let e2 := extractLine s.lyrics (info.1 + 1) 17 bot
    let top1 := if e1.1 then e1.2 else bufSet e1.2 0 nulChar
    let bot1 := if e2.1 then e2.2 else bufSet e2.2 0 nulChar
    { evs := [Ev.lcdRow 0 (lcdFixed (cString top1)),
              Ev.lcdRow 1 (lcdFixed (cString bot1))]
      top := top1, bot := bot1, last := (info.1 : Int) }
  else { evs := [], top := top, bot := bot, last := lastLine }

/-- Sound-and-light portion of the per-note loop body: clear the LEDs,
light the clamped LED and start the tone for a non-rest note (stop the
tone for a rest), hold the on-time, release, hold the off-time. -/
def stepPlayEvs (s : Song) (unitMs notesPlayed : Nat) : List Ev :=
  let noteHz := s.notes.getD notesPlayed 0
  let t := noteTotalMs (s.durations.getD notesPlayed 0) unitMs
  let li := ledClamp (s.leds.getD notesPlayed 0)
  allLEDsOffEv
    ++ (if noteHz ≠ 0 then [Ev.ledWrite li true, Ev.toneStart noteHz]
        else [Ev.toneStop])
    ++ [Ev.delayMs (noteOnOf t), Ev.toneStop]
    ++ allLEDsOffEv ++ [Ev.delayMs (noteOffOf t)]

/-- Per-note loop of `playSong`, emitting events.  Carries the loop state
`(notesPlayed, lastLineDisplayed, top, bot)`; `fuel` is the number of notes
still to play (`totalNotes - notesPlayed`). -/
def playLoop (s : Song) (unitMs : Nat) :
    Nat → Nat → Int → List Char → List Char → List Ev
  | 0, _, _, _, _ => []
  | fuel + 1, notesPlayed, lastLine, top, bot =>
      let r := lcdUpdate s notesPlayed lastLine top bot
      r.evs ++ stepPlayEvs s unitMs notesPlayed
        ++ playLoop s unitMs fuel (notesPlayed + 1) r.last r.top r.bot

/-- The playback engine `playSong`, as the trace of sink commands and
delays it performs.  A song failing the safety check produces no events. -/
def playSong (s : Song) : List Ev :=
  if s.len ≤ 0 ∨ s.bpm ≤ 0 then []
  else
    let unitMs := eighthMs s.bpm.toNat
    ([Ev.lcdClear, Ev.lcdRow 0 (lcdFixed "Now Playing:".toList)]
        ++ (match s.banner with
            | some txt => [Ev.lcdRow 1 (lcdFixed txt.toList)]
            | none => [])
        ++ [Ev.delayMs 900, Ev.lcdClear]
        ++ allLEDsOffEv ++ [Ev.toneStop])
      ++ playLoop s unitMs s.len.toNat 0 (-999)
          (List.replicate 17 nulChar) (List.replicate 17 nulChar)
      ++ ([Ev.toneStop] ++ allLEDsOffEv
          ++ [Ev.lcdClear, Ev.lcdRow 0 (lcdFixed "Song Complete!".toList),
              Ev.lcdRow 1 (lcdFixed "Choose another!".toList),
              Ev.serialLine "Song Complete!", Ev.delayMs 1200])

/-- Sink state tracked through a trace: tone playing, and the five LED
levels. -/
def applyEv (st : Bool × List Bool) (e : Ev) : Bool × List Bool :=
  match e with
  | Ev.toneStart _ => (true, st.2)
  | Ev.toneStop => (false, st.2)
  | Ev.ledWrite i b => (st.1, st.2.set i b)
  | _ => st

/-- Sink state after running a trace from an initial state. -/
def runState (t : List Ev) (st : Bool × List Bool) : Bool × List Bool :=
  t.foldl applyEv st

/-- Number of blocking delays in a trace (two per note, one in the
banner, one in the end screen). -/
def countDelays (t : List Ev) : Nat :=
  t.countP (fun e => match e with | Ev.delayMs _ => true | _ => false)

/-- Number of light-on commands in a trace (one per non-rest note). -/
def countLedOns (t : List Ev) : Nat :=
  t.countP (fun e => match e with | Ev.ledWrite _ b => b | _ => false)

/-- Number of non-rest pitches among `fuel` note slots starting at `n`. -/
def nonRestFrom (notes : List Nat) : Nat → Nat → Nat
  | _, 0 => 0
  | n, fuel + 1 => (if notes.getD n 0 ≠ 0 then 1 else 0) + nonRestFrom notes (n + 1) fuel

/-- Number of non-rest pitches among the first `len` note slots. -/
def nonRestCount (notes : List Nat) (len : Nat) : Nat :=
  nonRestFrom notes 0 len

/-- Bound check on a single event: every LED write addresses an index at
most 4. -/
def ledWriteOK (e : Ev) : Bool :=
  match e with
  | Ev.ledWrite i _ => i ≤ 4
  | _ => true

/-! Basic facts about the LED clamp and the traces of the engine. -/

theorem ledClamp_le_four (v : Nat) : ledClamp v ≤ 4 := by
  unfold ledClamp; split <;> omega

theorem allLEDsOffEv_all : allLEDsOffEv.all ledWriteOK = true := by decide

theorem stepPlayEvs_all (s : Song) (u n : Nat) :
    (stepPlayEvs s u n).all ledWriteOK = true := by
  unfold stepPlayEvs
  dsimp only
  split <;>
    simp [List.all_append, allLEDsOffEv, ledWriteOK, ledClamp_le_four] <;>
    omega

theorem lcdUpdate_evs_shape (s : Song) (n : Nat) (last : Int) (top bot : List Char) :
    (lcdUpdate s n last top bot).evs = []
      ∨ ∃ a b, (lcdUpdate s n last top bot).evs = [Ev.lcdRow 0 a, Ev.lcdRow 1 b] := by
  unfold lcdUpdate
  dsimp only
  split
  · exact Or.inr ⟨_, _, rfl⟩
  · exact Or.inl rfl

theorem playLoop_all_ledOK (s : Song) (u : Nat) :
    ∀ fuel n last top bot, (playLoop s u fuel n last top bot).all ledWriteOK = true := by
  intro fuel
  induction fuel with
  | zero => intro n last top bot; rfl
  | succ fuel ih =>
      intro n last top bot
      simp only [playLoop, List.all_append, Bool.and_eq_true]
      refine ⟨⟨?_, stepPlayEvs_all s u n⟩, ih (n + 1) _ _ _⟩
      rcases lcdUpdate_evs_shape s n last top bot with h | ⟨a, b, h⟩ <;>
        simp [h, ledWriteOK]

/-- C7: the playback engine addresses only clamped LED indices.  Every
LED write in any `playSong` trace targets an index at most 4; the clamp
sends any raw light-track value `v ≥ 5` to 4 (in particular 7 to 4) and
never produces an index outside `[0, 4]`. -/
theorem c7_led_clamped :
    (∀ s : Song, (playSong s).all ledWriteOK = true)
      ∧ (∀ v : Nat, 5 ≤ v → ledClamp v = 4)
      ∧ ledClamp 7 = 4
      ∧ (∀ v : Nat, ledClamp v ≤ 4) := by
  refine ⟨?_, ?_, by decide, ledClamp_le_four⟩
  · intro s
    unfold playSong
    split
    · rfl
    · simp only [List.all_append, Bool.and_eq_true]
      refine ⟨⟨?_, playLoop_all_ledOK s _ _ 0 _ _ _⟩, ?_⟩
      · cases s.banner <;> simp [ledWriteOK, allLEDsOffEv, List.all_append] <;> omega
      · simp [ledWriteOK, allLEDsOffEv, List.all_append]; omega
  · intro v hv
    unfold ledClamp
    split <;> omega

/-- Witness for C7 at the concrete raw index 7 from the claim. -/
theorem c7_witness : 5 ≤ 7 ∧ ledClamp 7 = 4 :=
  ⟨by decide, c7_led_clamped.2.1 7 (by decide)⟩

/-- C2: the tempo clock.  For positive tempo, the nested truncating
division `(60000 / bpm) / 2` of the source equals the spec contract
`floor(wholeBeatDuration(tempo) / 2)` with `wholeBeatDuration = 60000 /
tempo` (all divisions are floor divisions on `Nat`), and in particular
`eighthMs 96 = 312`. -/
theorem c2_eighthMs_floor (tempo : Nat) (h : 0 < tempo) :
    eighthMs tempo = wholeBeatDuration tempo / 2 ∧ eighthMs 96 = 312 :=
  ⟨rfl, by decide⟩

/-- Witness for C2 at tempo 96. -/
theorem c2_witness :
    0 < 96 ∧ (eighthMs 96 = wholeBeatDuration 96 / 2 ∧ eighthMs 96 = 312) :=
  ⟨by decide, c2_eighthMs_floor 96 (by decide)⟩

set_option maxRecDepth 4000 in
/-- C3: the articulation split.  For every note slot the engine processes
(song `s` of the catalog, slot `i < melodyLen s`), the on-time computed by
the source's float expression `(unsigned long)((float)noteTotal * GATE)`
(modelled exactly by `noteOnOf` via IEEE-754 single-precision rounding
with `GATE = 0.93f = 15602811/2^24`) equals `floor(noteTotal * 0.93)` in
exact arithmetic (`gateFloor`), and `onTime + offTime = noteTotal` holds;
in particular the split of 624 is 580/44. -/
theorem c3_gate_split :
    (∀ s : Fin 3, ∀ i : Fin (songOf s.val).len.toNat,
      noteOnOf (noteTotalMs ((songOf s.val).durations.getD i.val 0)
            (eighthMs (songOf s.val).bpm.toNat))
          = gateFloor (noteTotalMs ((songOf s.val).durations.getD i.val 0)
              (eighthMs (songOf s.val).bpm.toNat))
        ∧ noteOnOf (noteTotalMs ((songOf s.val).durations.getD i.val 0)
              (eighthMs (songOf s.val).bpm.toNat))
            + noteOffOf (noteTotalMs ((songOf s.val).durations.getD i.val 0)
                (eighthMs (songOf s.val).bpm.toNat))
          = noteTotalMs ((songOf s.val).durations.getD i.val 0)
              (eighthMs (songOf s.val).bpm.toNat))
      ∧ noteOnOf 624 = 580 ∧ noteOffOf 624 = 44 := by
  decide

/-- C6: rejection of unplayable songs.  A song with `trueLength ≤ 0` or
`tempo ≤ 0` produces an empty trace: no display write, light change, tone
command or delay is performed. -/
theorem c6_reject (s : Song) (h : s.len ≤ 0 ∨ s.bpm ≤ 0) : playSong s = [] := by
  unfold playSong
  rw [if_pos h]

/-- Song 1 of the catalog with its tempo forced to zero. -/
def tempoZeroSong : Song :=
  { songOf 1 with bpm := 0 }

/-- Witness for C6: attempting playback of a concrete song with tempo 0
touches no sink. -/
theorem c6_witness :
    (tempoZeroSong.len ≤ 0 ∨ tempoZeroSong.bpm ≤ 0) ∧ playSong tempoZeroSong = [] :=
  ⟨Or.inr (by decide), c6_reject tempoZeroSong (Or.inr (by decide))⟩

/-! Lemmas about the subtraction loop of the lyric indexer. -/

theorem locLoop_ge (cs : List Nat) (t : Int) (i : Nat) : i ≤ locLoop cs t i := by
  induction cs generalizing t i with
  | nil => simp [locLoop]
  | cons c rest ih =>
      simp only [locLoop]
      split
      · exact le_refl i
      · split
        · exact le_refl i
        · exact le_trans (Nat.le_succ i) (ih _ _)

theorem locLoop_shift (cs : List Nat) (t : Int) (i : Nat) :
    locLoop cs t i = i + locLoop cs t 0 := by
  induction cs generalizing t i with
  | nil => simp [locLoop]
  | cons c rest ih =>
      simp only [locLoop]
      split
      · simp
      · split
        · simp
        · rw [ih _ (i + 1), ih _ 1]
          omega

theorem prefixSum_zero (cs : List Nat) : prefixSum cs 0 = 0 := by
  simp [prefixSum]

theorem prefixSum_cons (c : Nat) (rest : List Nat) (k : Nat) :
    prefixSum (c :: rest) (k + 1) = (c : Int) + prefixSum rest k := by
  simp [prefixSum]

theorem prefixSum_nonneg (cs : List Nat) (k : Nat) : 0 ≤ prefixSum cs k := by
  unfold prefixSum
  exact Int.natCast_nonneg _

theorem stopsAt_nil (n : Int) (i : Nat) : stopsAt [] n i := by
  simp [stopsAt, List.getD]

theorem stopsAt_cons_zero (c : Nat) (rest : List Nat) (n : Int) :
    stopsAt (c :: rest) n 0 ↔ (c = 0 ∨ n - (c : Int) < 0) := by
  simp [stopsAt, prefixSum]

theorem stopsAt_cons_succ (c : Nat) (rest : List Nat) (n : Int) (j : Nat) :
    stopsAt (c :: rest) n (j + 1) ↔ stopsAt rest (n - (c : Int)) j := by
  unfold stopsAt
  rw [prefixSum_cons]
  simp only [List.getD_cons_succ]
  constructor <;> rintro (h | h)
  · exact Or.inl h
  · exact Or.inr (by omega)
  · exact Or.inl h
  · exact Or.inr (by omega)

theorem locLoop_stops (cs : List Nat) (n : Int) : stopsAt cs n (locLoop cs n 0) := by
  induction cs generalizing n with
  | nil => exact stopsAt_nil n 0
  | cons c rest ih =>
      simp only [locLoop]
      by_cases h0 : c = 0
      · rw [if_pos h0]
        exact (stopsAt_cons_zero c rest n).2 (Or.inl h0)
      · rw [if_neg h0]
        by_cases h1 : n - (c : Int) < 0
        · rw [if_pos h1]
          exact (stopsAt_cons_zero c rest n).2 (Or.inr h1)
        · rw [if_neg h1, locLoop_shift]
          have hx : 1 + locLoop rest (n - (c : Int)) 0
              = locLoop rest (n - (c : Int)) 0 + 1 := by omega
          rw [hx]
          exact (stopsAt_cons_succ c rest n _).2 (ih (n - (c : Int)))

theorem locLoop_min (cs : List Nat) (n : Int) :
    ∀ j < locLoop cs n 0, ¬ stopsAt cs n j := by
  induction cs generalizing n with
  | nil => simp [locLoop]
  | cons c rest ih =>
      intro j hj
      simp only [locLoop] at hj
      by_cases h0 : c = 0
      · rw [if_pos h0] at hj
        omega
      · rw [if_neg h0] at hj
        by_cases h1 : n - (c : Int) < 0
        · rw [if_pos h1] at hj
          omega
        · rw [if_neg h1, locLoop_shift] at hj
          cases j with
          | zero =>
              rw [stopsAt_cons_zero]
              push_neg
              exact ⟨h0, by omega⟩
          | succ j' =>
              rw [stopsAt_cons_succ]
              exact ih (n - (c : Int)) j' (by omega)

theorem locLoop_eq_of_stop (cs : List Nat) (n : Int) (i : Nat)
    (h1 : stopsAt cs n i) (h2 : ∀ j < i, ¬ stopsAt cs n j) :
    locLoop cs n 0 = i := by
  rcases lt_trichotomy (locLoop cs n 0) i with h | h | h
  · exact absurd (locLoop_stops cs n) (h2 _ h)
  · exact h
  · exact absurd h1 (locLoop_min cs n i h)

theorem locLoop_mono (cs : List Nat) :
    ∀ (n m : Int) (i : Nat), n ≤ m → locLoop cs n i ≤ locLoop cs m i := by
  induction cs with
  | nil => intro n m i _; simp [locLoop]
  | cons c rest ih =>
      intro n m i hnm
      simp only [locLoop]
      by_cases h0 : c = 0
      · simp [h0]
      · rw [if_neg h0, if_neg h0]
        by_cases hm : m - (c : Int) < 0
        · have hn : n - (c : Int) < 0 := by omega
          rw [if_pos hn, if_pos hm]
        · by_cases hn : n - (c : Int) < 0
          · rw [if_pos hn, if_neg hm]
            exact le_trans (Nat.le_succ i) (locLoop_ge rest _ (i + 1))
          · rw [if_neg hn, if_neg hm]
            exact ih _ _ _ (by omega)

theorem prefixSum_mono (cs : List Nat) :
    ∀ j k, j ≤ k → prefixSum cs j ≤ prefixSum cs k := by
  induction cs with
  | nil => intro j k _; simp [prefixSum]
  | cons c rest ih =>
      intro j k hjk
      cases j with
      | zero => rw [prefixSum_zero]; exact prefixSum_nonneg _ _
      | succ j' =>
          cases k with
          | zero => omega
          | succ k' =>
              rw [prefixSum_cons, prefixSum_cons]
              have := ih j' k' (by omega)
              omega

theorem prefixSum_succ_getD (cs : List Nat) :
    ∀ i, i < cs.length → prefixSum cs (i + 1) = prefixSum cs i + ((cs.getD i 0 : Nat) : Int) := by
  induction cs with
  | nil => intro i hi; simp at hi
  | cons c rest ih =>
      intro i hi
      cases i with
      | zero => simp [prefixSum_cons, prefixSum_zero]
      | succ i' =>
          rw [prefixSum_cons, prefixSum_cons, List.getD_cons_succ,
            ih i' (by simpa using hi)]
          omega

theorem definedPrefix_entries_ne (cs : List Nat) :
    ∀ i, i < definedLines cs → cs.getD i 0 ≠ 0 := by
  induction cs with
  | nil => intro i hi; simp [definedLines, definedPrefix] at hi
  | cons c rest ih =>
      intro i hi
      by_cases h0 : c = 0
      · simp [definedLines, definedPrefix, h0] at hi
      · simp only [definedLines, definedPrefix, if_neg h0, List.length_cons] at hi
        cases i with
        | zero => simpa using h0
        | succ i' =>
            refine ih i' ?_
            simp only [definedLines]
            omega

theorem getD_at_definedLines (cs : List Nat) (h : 0 ∈ cs) :
    cs.getD (definedLines cs) 0 = 0 := by
  induction cs with
  | nil => simp at h
  | cons c rest ih =>
      by_cases h0 : c = 0
      · simp [definedLines, definedPrefix, h0]
      · have hr : 0 ∈ rest := by
          rcases List.mem_cons.1 h with h' | h'
          · exact absurd h'.symm h0
          · exact h'
        simp only [definedLines, definedPrefix, if_neg h0, List.length_cons,
          List.getD_cons_succ]
        exact ih hr

theorem definedLines_le_length (cs : List Nat) : definedLines cs ≤ cs.length := by
  induction cs with
  | nil => simp [definedLines, definedPrefix]
  | cons c rest ih =>
      by_cases h0 : c = 0
      · simp [definedLines, definedPrefix, h0]
      · simp only [definedLines, definedPrefix, if_neg h0, List.length_cons]
        exact Nat.succ_le_succ ih

theorem prefixSum_at_definedLines (cs : List Nat) :
    prefixSum cs (definedLines cs) = definedSum cs := by
  induction cs with
  | nil => simp [definedLines, definedPrefix, definedSum, prefixSum]
  | cons c rest ih =>
      by_cases h0 : c = 0
      · simp [definedLines, definedPrefix, definedSum, h0, prefixSum_zero]
      · have ih' : prefixSum rest (definedPrefix rest).length
            = (((definedPrefix rest).sum : Nat) : Int) := ih
        simp only [definedLines, definedPrefix, if_neg h0, List.length_cons,
          prefixSum_cons, definedSum, List.sum_cons]
        rw [ih']
        push_cast
        ring

/-- C1: the lyric indexer follows the spec subtraction algorithm.  For a
zero-terminated count row and `notesPlayed ≥ 0` the returned `lineIndex`
is the first index where the terminator is reached or the running
remainder goes negative, `lineStartNote` is the sum of the counts before
it, `lineNoteSpan` is the count there or, when that count is zero,
`max 1 (trueLength - lineStartNote)`, and the span is always at least 1.
No hypothesis bounds `notesPlayed` from above: the triple is also valid
for `notesPlayed ≥ trueLength`. -/
theorem c1_getLineInfo_subtraction (counts : List Nat) (n total : Int)
    (hterm : 0 ∈ counts) (hn : 0 ≤ n) :
    stopsAt counts n (getLineInfoFromNotesPlayed counts n total).1
    ∧ (∀ j < (getLineInfoFromNotesPlayed counts n total).1, ¬ stopsAt counts n j)
    ∧ (getLineInfoFromNotesPlayed counts n total).2.1
        = prefixSum counts (getLineInfoFromNotesPlayed counts n total).1
    ∧ (getLineInfoFromNotesPlayed counts n total).2.2
        = (if counts.getD (getLineInfoFromNotesPlayed counts n total).1 0 = 0
           then max 1 (total - (getLineInfoFromNotesPlayed counts n total).2.1)
           else ((counts.getD (getLineInfoFromNotesPlayed counts n total).1 0 : Nat) : Int))
    ∧ 1 ≤ (getLineInfoFromNotesPlayed counts n total).2.2 := by
  refine ⟨locLoop_stops counts n, locLoop_min counts n, rfl, ?_, ?_⟩
  · show (if ((counts.getD (locLoop counts n 0) 0 : Nat) : Int) = 0
        then (if total - prefixSum counts (locLoop counts n 0) ≤ 0 then 1
              else total - prefixSum counts (locLoop counts n 0))
        else ((counts.getD (locLoop counts n 0) 0 : Nat) : Int))
      = (if counts.getD (locLoop counts n 0) 0 = 0
         then max 1 (total - prefixSum counts (locLoop counts n 0))
         else ((counts.getD (locLoop counts n 0) 0 : Nat) : Int))
    by_cases hg : counts.getD (locLoop counts n 0) 0 = 0
    · rw [if_pos hg, if_pos (by exact_mod_cast hg)]
      rcases le_or_lt (total - prefixSum counts (locLoop counts n 0)) 0 with h | h
      · rw [if_pos h]
        exact (max_eq_left (by omega)).symm
      · rw [if_neg (by omega)]
        exact (max_eq_right (by omega)).symm
    · rw [if_neg hg, if_neg (by exact_mod_cast hg)]
  · show 1 ≤ (if ((counts.getD (locLoop counts n 0) 0 : Nat) : Int) = 0
        then (if total - prefixSum counts (locLoop counts n 0) ≤ 0 then 1
              else total - prefixSum counts (locLoop counts n 0))
        else ((counts.getD (locLoop counts n 0) 0 : Nat) : Int))
    split_ifs with h1 h2 <;> omega

/-- Witness for C1 at the concrete row `[4, 4, 0]`, `notesPlayed = 5`,
`trueLength = 10`. -/
theorem c1_witness :
    (0 : Nat) ∈ [4, 4, 0] ∧ (0 : Int) ≤ 5
    ∧ (stopsAt [4, 4, 0] 5 (getLineInfoFromNotesPlayed [4, 4, 0] 5 10).1
      ∧ (∀ j < (getLineInfoFromNotesPlayed [4, 4, 0] 5 10).1, ¬ stopsAt [4, 4, 0] 5 j)
      ∧ (getLineInfoFromNotesPlayed [4, 4, 0] 5 10).2.1
          = prefixSum [4, 4, 0] (getLineInfoFromNotesPlayed [4, 4, 0] 5 10).1
      ∧ (getLineInfoFromNotesPlayed [4, 4, 0] 5 10).2.2
          = (if List.getD [4, 4, 0] (getLineInfoFromNotesPlayed [4, 4, 0] 5 10).1 0 = 0
             then max 1 (10 - (getLineInfoFromNotesPlayed [4, 4, 0] 5 10).2.1)
             else ((List.getD [4, 4, 0] (getLineInfoFromNotesPlayed [4, 4, 0] 5 10).1 0 : Nat) : Int))
      ∧ 1 ≤ (getLineInfoFromNotesPlayed [4, 4, 0] 5 10).2.2) :=
  ⟨by decide, by decide, c1_getLineInfo_subtraction [4, 4, 0] 5 10 (by decide) (by decide)⟩

/-- C10: the lyric line index is monotone in the note count, so the
displayed line never moves backwards during playback. -/
theorem c10_lineIndex_monotone (counts : List Nat) (n m total : Int)
    (hterm : 0 ∈ counts) (hn : 0 ≤ n) (hnm : n ≤ m) :
    (getLineInfoFromNotesPlayed counts n total).1
      ≤ (getLineInfoFromNotesPlayed counts m total).1 :=
  locLoop_mono counts n m 0 hnm

/-- Witness for C10 at the row `[4, 4, 0]` with `n = 1 ≤ m = 5`. -/
theorem c10_witness :
    (0 : Nat) ∈ [4, 4, 0] ∧ (0 : Int) ≤ 1 ∧ (1 : Int) ≤ 5
    ∧ (getLineInfoFromNotesPlayed [4, 4, 0] 1 10).1
        ≤ (getLineInfoFromNotesPlayed [4, 4, 0] 5 10).1 :=
  ⟨by decide, by decide, by decide,
    c10_lineIndex_monotone [4, 4, 0] 1 5 10 (by decide) (by decide) (by decide)⟩

/-- C9: coverage of the lyric lines.  If the counts before the terminator
sum to exactly `trueLength`, every defined line index is returned for some
`notesPlayed` in `[0, trueLength)`; if they sum to strictly less, every
remaining `notesPlayed` in `[sum, trueLength)` is mapped to the single
final line at the terminator position (index = number of defined lines,
the unterminated final line that absorbs the remainder). -/
theorem c9_coverage (counts : List Nat) (total : Int) (hterm : 0 ∈ counts) :
    (definedSum counts = total →
      ∀ i < definedLines counts, ∃ n : Int, 0 ≤ n ∧ n < total
        ∧ (getLineInfoFromNotesPlayed counts n total).1 = i)
    ∧ (definedSum counts < total →
      ∀ n : Int, definedSum counts ≤ n → n < total →
        (getLineInfoFromNotesPlayed counts n total).1 = definedLines counts) := by
  constructor
  · intro hsum i hi
    refine ⟨prefixSum counts i, prefixSum_nonneg _ _, ?_, ?_⟩
    · have hgd := definedPrefix_entries_ne counts i hi
      have hlen : i < counts.length := lt_of_lt_of_le hi (definedLines_le_length counts)
      have hsucc := prefixSum_succ_getD counts i hlen
      have hmono := prefixSum_mono counts (i + 1) (definedLines counts) hi
      rw [prefixSum_at_definedLines] at hmono
      have : (1 : Int) ≤ ((counts.getD i 0 : Nat) : Int) := by
        have : counts.getD i 0 ≠ 0 := hgd
        omega
      omega
    · show locLoop counts (prefixSum counts i) 0 = i
      apply locLoop_eq_of_stop
      · have hlen : i < counts.length := lt_of_lt_of_le hi (definedLines_le_length counts)
        have hsucc := prefixSum_succ_getD counts i hlen
        have hgd := definedPrefix_entries_ne counts i hi
        refine Or.inr ?_
        have : (1 : Int) ≤ ((counts.getD i 0 : Nat) : Int) := by
          have : counts.getD i 0 ≠ 0 := hgd
          omega
        omega
      · intro j hj
        unfold stopsAt
        push_neg
        refine ⟨definedPrefix_entries_ne counts j (by omega), ?_⟩
        have := prefixSum_mono counts (j + 1) i hj
        omega
  · intro hlt n hge hn2
    show locLoop counts n 0 = definedLines counts
    apply locLoop_eq_of_stop
    · exact Or.inl (getD_at_definedLines counts hterm)
    · intro j hj
      unfold stopsAt
      push_neg
      refine ⟨definedPrefix_entries_ne counts j hj, ?_⟩
      have := prefixSum_mono counts (j + 1) (definedLines counts) hj
      rw [prefixSum_at_definedLines] at this
      omega

/-- Witness for C9 at the row `[1, 2, 0]` with `trueLength = 3` (exact
sum) and, for the absorption part, `trueLength = 3` is replaced by the
application itself. -/
theorem c9_witness :
    (0 : Nat) ∈ [1, 2, 0]
    ∧ ((definedSum [1, 2, 0] = 3 →
        ∀ i < definedLines [1, 2, 0], ∃ n : Int, 0 ≤ n ∧ n < 3
          ∧ (getLineInfoFromNotesPlayed [1, 2, 0] n 3).1 = i)
      ∧ (definedSum [1, 2, 0] < 3 →
        ∀ n : Int, definedSum [1, 2, 0] ≤ n → n < 3 →
          (getLineInfoFromNotesPlayed [1, 2, 0] n 3).1 = definedLines [1, 2, 0])) :=
  ⟨by decide, c9_coverage [1, 2, 0] 3 (by decide)⟩

/-! Lemmas about the lyric-line extractor. -/

theorem cleanChars_cons (c : Char) (rest : List Char) :
    cleanChars (c :: rest) ↔ (c ≠ nulChar ∧ c ≠ crChar) ∧ cleanChars rest := by
  unfold cleanChars
  simp

theorem cleanChars_effChars (cs : List Char) : cleanChars (effChars cs) := by
  induction cs with
  | nil => intro c hc; simp [effChars] at hc
  | cons c rest ih =>
      by_cases h1 : c = nulChar
      · intro d hd; simp [effChars, h1] at hd
      · by_cases h2 : c = crChar
        · simpa [effChars, h1, h2] using ih
        · rw [show effChars (c :: rest) = c :: effChars rest from by
            simp [effChars, h1, h2]]
          exact (cleanChars_cons c (effChars rest)).2 ⟨⟨h1, h2⟩, ih⟩

theorem mem_afterNL (cs : List Char) : ∀ c ∈ afterNL cs, c ∈ cs := by
  induction cs with
  | nil => intro c hc; simp [afterNL] at hc
  | cons x rest ih =>
      intro c hc
      by_cases hx : x = nlChar
      · simp only [afterNL, if_pos hx] at hc
        exact List.mem_cons_of_mem x hc
      · simp only [afterNL, if_neg hx] at hc
        exact List.mem_cons_of_mem x (ih c hc)

theorem mem_lineHead (cs : List Char) : ∀ c ∈ lineHead cs, c ∈ cs := by
  induction cs with
  | nil => intro c hc; simp [lineHead] at hc
  | cons x rest ih =>
      intro c hc
      by_cases hx : x = nlChar
      · simp [lineHead, if_pos hx] at hc
      · simp only [lineHead, if_neg hx] at hc
        rcases List.mem_cons.1 hc with h | h
        · exact h ▸ List.mem_cons_self x rest
        · exact List.mem_cons_of_mem x (ih c h)

theorem mem_lineAt (k : Nat) : ∀ cs, ∀ c ∈ lineAt k cs, c ∈ cs := by
  induction k with
  | zero => intro cs c hc; exact mem_lineHead cs c hc
  | succ k ih =>
      intro cs c hc
      exact mem_afterNL cs c (ih (afterNL cs) c hc)

theorem cleanChars_afterNL (cs : List Char) (h : cleanChars cs) :
    cleanChars (afterNL cs) :=
  fun c hc => h c (mem_afterNL cs c hc)

theorem countNL_afterNL (cs : List Char) (h : countNL cs ≠ 0) :
    countNL (afterNL cs) = countNL cs - 1 := by
  induction cs with
  | nil => simp [countNL] at h
  | cons c rest ih =>
      by_cases hc : c = nlChar
      · simp [afterNL, countNL, hc]
      · simp only [afterNL, if_neg hc, countNL, if_neg hc, Nat.zero_add]
        exact ih (by simpa [countNL, hc] using h)

theorem glScan_effChars (t sz : Nat) :
    ∀ cs curLine pos buf,
      glScan t sz cs curLine pos buf = glScan t sz (effChars cs) curLine pos buf := by
  intro cs
  induction cs with
  | nil => intro curLine pos buf; rfl
  | cons c rest ih =>
      intro curLine pos buf
      by_cases h1 : c = nulChar
      · subst h1
        simp [glScan, effChars]
      · by_cases h2 : c = crChar
        · subst h2
          have e1 : effChars (crChar :: rest) = effChars rest := by
            simp [effChars, h1]
          have e2 : glScan t sz (crChar :: rest) curLine pos buf
              = glScan t sz rest curLine pos buf := by
            simp [glScan, h1]
          rw [e2, e1]
          exact ih curLine pos buf
        · have e1 : effChars (c :: rest) = c :: effChars rest := by
            simp [effChars, h1, h2]
          rw [e1]
          by_cases h3 : c = nlChar
          · subst h3
            have e2 : ∀ ds : List Char, glScan t sz (nlChar :: ds) curLine pos buf
                = if curLine = t then (true, bufSet buf pos nulChar)
                  else glScan t sz ds (curLine + 1) 0 buf := by
              intro ds
              simp [glScan, h1, h2]
            rw [e2 rest, e2 (effChars rest)]
            split
            · rfl
            · exact ih (curLine + 1) 0 buf
          · have e2 : ∀ ds : List Char, glScan t sz (c :: ds) curLine pos buf
                = if curLine = t ∧ pos < sz - 1
                  then glScan t sz ds curLine (pos + 1) (bufSet buf pos c)
                  else glScan t sz ds curLine pos buf := by
              intro ds
              simp [glScan, h1, h2, h3]
            rw [e2 rest, e2 (effChars rest)]
            split
            · exact ih curLine (pos + 1) _
            · exact ih curLine pos buf

theorem glScan_shift (t sz : Nat) :
    ∀ cs curLine pos buf,
      glScan (t + 1) sz cs (curLine + 1) pos buf = glScan t sz cs curLine pos buf := by
  intro cs
  induction cs with
  | nil =>
      intro curLine pos buf
      simp only [glScan, Nat.add_right_cancel_iff]
  | cons c rest ih =>
      intro curLine pos buf
      simp only [glScan, Nat.add_right_cancel_iff]
      by_cases h1 : c = nulChar
      · rw [if_pos h1, if_pos h1]
      · rw [if_neg h1, if_neg h1]
        by_cases h2 : c = crChar
        · rw [if_pos h2, if_pos h2]
          exact ih curLine pos buf
        · rw [if_neg h2, if_neg h2]
          by_cases h3 : c = nlChar
          · rw [if_pos h3, if_pos h3]
            split
            · rfl
            · exact ih (curLine + 1) 0 buf
          · rw [if_neg h3, if_neg h3]
            split
            · exact ih curLine (pos + 1) _
            · exact ih curLine pos buf

/-- Sequential buffer writes `out[pos] = s₀; out[pos+1] = s₁; ...`. -/
def writeAt (buf : List Char) (pos : Nat) : List Char → List Char
  | [] => buf
  | c :: s => writeAt (bufSet buf pos c) (pos + 1) s

theorem writeAt_length (s : List Char) :
    ∀ buf pos, (writeAt buf pos s).length = buf.length := by
  induction s with
  | nil => intro buf pos; rfl
  | cons c s ih =>
      intro buf pos
      simp only [writeAt]
      rw [ih]
      simp [bufSet]

theorem glScan_skipFirst (t sz : Nat) (ht : 0 < t) :
    ∀ cs pos buf, cleanChars cs →
      glScan t sz cs 0 pos buf
        = if countNL cs = 0 then (false, bufSet buf 0 nulChar)
          else glScan (t - 1) sz (afterNL cs) 0 0 buf := by
  intro cs
  induction cs with
  | nil =>
      intro pos buf _
      have e1 : glScan t sz ([] : List Char) 0 pos buf
          = (false, bufSet buf 0 nulChar) := by
        simp only [glScan]
        rw [if_neg (by omega : ¬(0 = t))]
      rw [e1]
      simp [countNL]
  | cons c rest ih =>
      intro pos buf hclean
      have hc := ((cleanChars_cons c rest).1 hclean).1
      have hrest := ((cleanChars_cons c rest).1 hclean).2
      by_cases h3 : c = nlChar
      · subst h3
        have e2 : glScan t sz (nlChar :: rest) 0 pos buf
            = glScan t sz rest 1 0 buf := by
          simp [glScan, hc.1, hc.2, (show ¬(0 = t) by omega)]
        rw [e2]
        have e3 : glScan t sz rest 1 0 buf = glScan (t - 1) sz rest 0 0 buf := by
          have := glScan_shift (t - 1) sz rest 0 0 buf
          rwa [Nat.sub_add_cancel (by omega), Nat.zero_add] at this
        rw [e3]
        simp [countNL, afterNL]
      · have e2 : glScan t sz (c :: rest) 0 pos buf = glScan t sz rest 0 pos buf := by
          have hne : ¬(0 = t ∧ pos < sz - 1) := by
            rintro ⟨h0, _⟩
            omega
          simp [glScan, hc.1, hc.2, h3, hne]
        rw [e2, ih pos buf hrest]
        simp [countNL, afterNL, h3]

theorem glScan_onTarget (t sz : Nat) (hsz : 1 ≤ sz) :
    ∀ cs pos buf, cleanChars cs → pos ≤ sz - 1 →
      glScan t sz cs t pos buf
        = (true, bufSet (writeAt buf pos ((lineHead cs).take (sz - 1 - pos)))
            (min (pos + (lineHead cs).length) (sz - 1)) nulChar) := by
  intro cs
  induction cs with
  | nil =>
      intro pos buf _ hpos
      have e2 : glScan t sz [] t pos buf = (true, bufSet buf pos nulChar) := by
        simp [glScan]
      rw [e2]
      simp only [lineHead, List.take_nil, writeAt, List.length_nil, Nat.add_zero]
      rw [min_eq_left hpos]
  | cons c rest ih =>
      intro pos buf hclean hpos
      have hc := ((cleanChars_cons c rest).1 hclean).1
      have hrest := ((cleanChars_cons c rest).1 hclean).2
      by_cases h3 : c = nlChar
      · subst h3
        have e2 : glScan t sz (nlChar :: rest) t pos buf
            = (true, bufSet buf pos nulChar) := by
          simp [glScan, hc.1, hc.2]
        have hl : lineHead (nlChar :: rest) = [] := by
          simp [lineHead]
        rw [e2, hl]
        simp only [List.take_nil, writeAt, List.length_nil, Nat.add_zero]
        rw [min_eq_left hpos]
      · have hl : lineHead (c :: rest) = c :: lineHead rest := by
          simp [lineHead, h3]
        by_cases h4 : pos < sz - 1
        · have e2 : glScan t sz (c :: rest) t pos buf
              = glScan t sz rest t (pos + 1) (bufSet buf pos c) := by
            simp [glScan, hc.1, hc.2, h3, h4]
          rw [e2, ih (pos + 1) (bufSet buf pos c) hrest (by omega), hl]
          have htake : (c :: lineHead rest).take (sz - 1 - pos)
              = c :: (lineHead rest).take (sz - 1 - (pos + 1)) := by
            have : sz - 1 - pos = (sz - 1 - (pos + 1)) + 1 := by omega
            rw [this, List.take_succ_cons]
          rw [htake]
          simp only [writeAt, List.length_cons]
          have e3 : pos + 1 + (lineHead rest).length
              = pos + ((lineHead rest).length + 1) := by
            omega
          rw [e3]
        · have hpos2 : pos = sz - 1 := by omega
          have e2 : glScan t sz (c :: rest) t pos buf
              = glScan t sz rest t pos buf := by
            simp [glScan, hc.1, hc.2, h3, h4]
          rw [e2, ih pos buf hrest hpos, hl]
          have t1 : sz - 1 - pos = 0 := by omega
          rw [t1]
          simp only [List.take_zero, writeAt, List.length_cons]
          have t2 : min (pos + (lineHead rest).length) (sz - 1) = sz - 1 := by
            omega
          have t3 : min (pos + ((lineHead rest).length + 1)) (sz - 1) = sz - 1 := by
            omega
          rw [t2, t3]

theorem glScan_run (sz : Nat) (hsz : 1 ≤ sz) :
    ∀ t cs buf, cleanChars cs →
      glScan t sz cs 0 0 buf
        = if t ≤ countNL cs
          then (true, bufSet (writeAt buf 0 ((lineAt t cs).take (sz - 1)))
              (min (lineAt t cs).length (sz - 1)) nulChar)
          else (false, bufSet buf 0 nulChar) := by
  intro t
  induction t with
  | zero =>
      intro cs buf hclean
      rw [if_pos (Nat.zero_le _)]
      have := glScan_onTarget 0 sz hsz cs 0 buf hclean (Nat.zero_le _)
      rw [this]
      simp [lineAt]
  | succ t ih =>
      intro cs buf hclean
      rw [glScan_skipFirst (t + 1) sz (Nat.succ_pos t) cs 0 buf hclean]
      by_cases h0 : countNL cs = 0
      · rw [if_pos h0, if_neg (by omega)]
      · rw [if_neg h0]
        simp only [Nat.add_sub_cancel]
        rw [ih (afterNL cs) buf (cleanChars_afterNL cs hclean)]
        have hcnt := countNL_afterNL cs h0
        by_cases h : t + 1 ≤ countNL cs
        · rw [if_pos (by rw [hcnt]; omega : t ≤ countNL (afterNL cs)), if_pos h]
          rfl
        · rw [if_neg (by rw [hcnt]; omega : ¬ t ≤ countNL (afterNL cs)), if_neg h]

theorem drop_set_of_lt (l : List Char) :
    ∀ (i n : Nat) (a : Char), i < n → (l.set i a).drop n = l.drop n := by
  induction l with
  | nil => intro i n a _; simp
  | cons x xs ih =>
      intro i n a hin
      cases i with
      | zero =>
          cases n with
          | zero => omega
          | succ n' => simp
      | succ i' =>
          cases n with
          | zero => omega
          | succ n' =>
              simp only [List.set_cons_succ, List.drop_succ_cons]
              exact ih i' n' a (by omega)

theorem set_append_length (s r : List Char) (c : Char) :
    (s ++ r).set s.length c = s ++ r.set 0 c := by
  induction s with
  | nil => simp
  | cons x xs ih => simp [ih]

theorem cString_append_nul (s r : List Char) (h : ∀ c ∈ s, c ≠ nulChar) :
    cString (s ++ nulChar :: r) = s := by
  induction s with
  | nil => simp [cString]
  | cons x xs ih =>
      have hx : x ≠ nulChar := h x (List.mem_cons_self x xs)
      have ih' := ih (fun c hc => h c (List.mem_cons_of_mem x hc))
      unfold cString at ih' ⊢
      simp only [List.cons_append, List.takeWhile_cons]
      rw [if_pos (by simpa using hx), ih']

theorem cString_set_zero (buf : List Char) (h : buf ≠ []) :
    cString (bufSet buf 0 nulChar) = [] := by
  cases buf with
  | nil => exact absurd rfl h
  | cons x xs => simp [bufSet, cString]

theorem take_set_succ (buf : List Char) :
    ∀ (pos : Nat) (c : Char), pos < buf.length →
      (buf.set pos c).take (pos + 1) = buf.take pos ++ [c] := by
  induction buf with
  | nil => intro pos c h; simp at h
  | cons x xs ih =>
      intro pos c h
      cases pos with
      | zero => simp
      | succ p =>
          simp only [List.set_cons_succ, List.take_succ_cons, List.cons_append]
          rw [ih p c (by simpa using h)]

theorem writeAt_append_drop (s : List Char) :
    ∀ (buf : List Char) (pos : Nat), pos + s.length ≤ buf.length →
      writeAt buf pos s = buf.take pos ++ s ++ buf.drop (pos + s.length) := by
  induction s with
  | nil =>
      intro buf pos _
      simp only [writeAt, List.length_nil, Nat.add_zero, List.append_nil]
      exact (List.take_append_drop pos buf).symm
  | cons c s ih =>
      intro buf pos hlen
      simp only [List.length_cons] at hlen
      have hpos : pos < buf.length := by omega
      have hlen2 : (pos + 1) + s.length ≤ (bufSet buf pos c).length := by
        simp only [bufSet, List.length_set]
        omega
      simp only [writeAt]
      rw [ih (bufSet buf pos c) (pos + 1) hlen2]
      unfold bufSet
      rw [take_set_succ buf pos c hpos]
      rw [drop_set_of_lt buf pos (pos + 1 + s.length) c (by omega)]
      have harith : pos + 1 + s.length = pos + (s.length + 1) := by omega
      rw [harith]
      simp [List.append_assoc]

theorem glScan_frame (t sz : Nat) (hsz : 1 ≤ sz) :
    ∀ cs curLine pos buf, pos < sz →
      (glScan t sz cs curLine pos buf).2.drop sz = buf.drop sz := by
  intro cs
  induction cs with
  | nil =>
      intro curLine pos buf hpos
      simp only [glScan]
      split
      · exact drop_set_of_lt buf pos sz nulChar hpos
      · exact drop_set_of_lt buf 0 sz nulChar (by omega)
  | cons c rest ih =>
      intro curLine pos buf hpos
      by_cases h1 : c = nulChar
      · simp only [glScan, if_pos h1]
        split
        · exact drop_set_of_lt buf pos sz nulChar hpos
        · exact drop_set_of_lt buf 0 sz nulChar (by omega)
      · by_cases h2 : c = crChar
        · simp only [glScan, if_neg h1, if_pos h2]
          exact ih curLine pos buf hpos
        · by_cases h3 : c = nlChar
          · simp only [glScan, if_neg h1, if_neg h2, if_pos h3]
            split
            · exact drop_set_of_lt buf pos sz nulChar hpos
            · exact ih (curLine + 1) 0 buf (by omega)
          · simp only [glScan, if_neg h1, if_neg h2, if_neg h3]
            split
            · rename_i h4
              rw [ih curLine (pos + 1) (bufSet buf pos c) (by omega)]
              exact drop_set_of_lt buf pos sz c hpos
            · exact ih curLine pos buf hpos

theorem glScan_sndLength (t sz : Nat) :
    ∀ cs curLine pos buf, (glScan t sz cs curLine pos buf).2.length = buf.length := by
  intro cs
  induction cs with
  | nil =>
      intro curLine pos buf
      simp only [glScan]
      split <;> simp [bufSet]
  | cons c rest ih =>
      intro curLine pos buf
      by_cases h1 : c = nulChar
      · simp only [glScan, if_pos h1]
        split <;> simp [bufSet]
      · by_cases h2 : c = crChar
        · simp only [glScan, if_neg h1, if_pos h2]
          exact ih curLine pos buf
        · by_cases h3 : c = nlChar
          · simp only [glScan, if_neg h1, if_neg h2, if_pos h3]
            split
            · simp [bufSet]
            · exact ih (curLine + 1) 0 buf
          · simp only [glScan, if_neg h1, if_neg h2, if_neg h3]
            split
            · rw [ih curLine (pos + 1) (bufSet buf pos c)]
              simp [bufSet]
            · exact ih curLine pos buf

theorem extractLine_some_run (cs : List Char) (target sz : Nat) (buf : List Char)
    (hsz : 1 ≤ sz) :
    extractLine (some cs) target sz buf
      = if target ≤ countNL (effChars cs)
        then (true, bufSet (writeAt (bufSet buf 0 nulChar) 0
              ((lineAt target (effChars cs)).take (sz - 1)))
            (min (lineAt target (effChars cs)).length (sz - 1)) nulChar)
        else (false, bufSet (bufSet buf 0 nulChar) 0 nulChar) := by
  unfold extractLine
  rw [if_neg (by omega)]
  show glScan target sz cs 0 0 (bufSet buf 0 nulChar) = _
  rw [glScan_effChars]
  exact glScan_run sz hsz target (effChars cs) (bufSet buf 0 nulChar)
    (cleanChars_effChars cs)

theorem extractLine_some_fst (cs : List Char) (target sz : Nat) (buf : List Char)
    (hsz : 1 ≤ sz) :
    (extractLine (some cs) target sz buf).1
      = decide (target ≤ countNL (effChars cs)) := by
  rw [extractLine_some_run cs target sz buf hsz]
  by_cases h : target ≤ countNL (effChars cs) <;> simp [h]

theorem extractLine_some_cString (cs : List Char) (target sz : Nat) (buf : List Char)
    (hsz : 1 ≤ sz) (hbuf : sz ≤ buf.length) :
    cString (extractLine (some cs) target sz buf).2
      = if target ≤ countNL (effChars cs)
        then (lineAt target (effChars cs)).take (sz - 1)
        else [] := by
  rw [extractLine_some_run cs target sz buf hsz]
  by_cases h : target ≤ countNL (effChars cs)
  · rw [if_pos h, if_pos h]
    have hslen : ((lineAt target (effChars cs)).take (sz - 1)).length ≤ sz - 1 := by
      simp [List.length_take]
    have hlen0 : (bufSet buf 0 nulChar).length = buf.length := by
      simp [bufSet]
    have hidx : min (lineAt target (effChars cs)).length (sz - 1)
        = ((lineAt target (effChars cs)).take (sz - 1)).length := by
      simp [List.length_take, Nat.min_comm]
    rw [hidx]
    rw [writeAt_append_drop _ (bufSet buf 0 nulChar) 0 (by omega)]
    simp only [List.take_zero, List.nil_append, Nat.zero_add]
    obtain ⟨x, xs, hd⟩ : ∃ x xs,
        (bufSet buf 0 nulChar).drop
          ((lineAt target (effChars cs)).take (sz - 1)).length = x :: xs := by
      cases hdd : (bufSet buf 0 nulChar).drop
          ((lineAt target (effChars cs)).take (sz - 1)).length with
      | nil =>
          exfalso
          have := congrArg List.length hdd
          simp only [List.length_drop, List.length_nil, hlen0] at this
          omega
      | cons x xs => exact ⟨x, xs, rfl⟩
    rw [hd]
    unfold bufSet
    rw [set_append_length _ (x :: xs) nulChar]
    simp only [List.set_cons_zero]
    apply cString_append_nul
    intro c hc
    have hmem : c ∈ lineAt target (effChars cs) := List.take_subset _ _ hc
    exact (cleanChars_effChars cs c (mem_lineAt target (effChars cs) c hmem)).1
  · rw [if_neg h, if_neg h]
    apply cString_set_zero
    intro hnil
    have := congrArg List.length hnil
    simp only [bufSet, List.length_set, List.length_nil] at this
    omega

theorem extractLine_frame (lyr : Option (List Char)) (target sz : Nat)
    (buf : List Char) :
    (extractLine lyr target sz buf).2.drop sz = buf.drop sz := by
  unfold extractLine
  by_cases h0 : sz = 0
  · rw [if_pos h0]
  · rw [if_neg h0]
    cases lyr with
    | none => exact drop_set_of_lt buf 0 sz nulChar (by omega)
    | some cs =>
        rw [glScan_frame target sz (by omega) cs 0 0 _ (by omega)]
        exact drop_set_of_lt buf 0 sz nulChar (by omega)

/-- Counterexample for C5 as stated: with `outSize = 0` the function
returns `false` and leaves the buffer untouched even though the requested
line exists, so the buffer is not null-terminated and the
"true iff the line exists" and "empty string when outSize is zero" parts
fail on a one-byte buffer holding `x`. -/
theorem c5_counterexample :
    getLyricLine 0 0 0 [Char.ofNat 120] = (false, [Char.ofNat 120])
      ∧ lineExists (getLyricsPtr 0) 0
      ∧ cString [Char.ofNat 120] ≠ [] := by
  refine ⟨rfl, ?_, by decide⟩
  show (0 : Nat) ≤ countNL (effChars lyrics1)
  exact Nat.zero_le _

/-- C5 (amended): for `outSize ≥ 1` (and a buffer of at least `outSize`
cells) `getLyricLine` returns `true` exactly when the requested line
exists in the song's lyric text (explicitly newline-delimited or the
final unterminated line), and the buffer is left null-terminated holding
the line truncated to `outSize - 1` characters on success and the empty
string on failure; for `outSize = 0` it returns `false` and leaves the
buffer untouched (a zero-sized buffer cannot hold a terminator). -/
theorem c5_extract_amended (songIdx target sz : Nat) (buf : List Char)
    (h1 : 1 ≤ sz) (h2 : sz ≤ buf.length) :
    ((getLyricLine songIdx target sz buf).1 = true
        ↔ lineExists (getLyricsPtr songIdx) target)
      ∧ cString (getLyricLine songIdx target sz buf).2
          = (match getLyricsPtr songIdx with
             | none => []
             | some cs =>
                 if target ≤ countNL (effChars cs)
                 then (lineAt target (effChars cs)).take (sz - 1)
                 else [])
      ∧ (∀ b : List Char, getLyricLine songIdx target 0 b = (false, b)) := by
  refine ⟨?_, ?_, fun b => rfl⟩
  · unfold getLyricLine
    cases hp : getLyricsPtr songIdx with
    | none =>
        simp only [lineExists]
        unfold extractLine
        rw [if_neg (by omega)]
        simp
    | some cs =>
        rw [extractLine_some_fst cs target sz buf h1]
        simp [lineExists]
  · unfold getLyricLine
    cases hp : getLyricsPtr songIdx with
    | none =>
        unfold extractLine
        rw [if_neg (by omega)]
        apply cString_set_zero
        intro hnil
        have := congrArg List.length hnil
        simp only [bufSet, List.length_set, List.length_nil] at this
        omega
    | some cs => exact extractLine_some_cString cs target sz buf h1 h2

/-- Witness for C5 (amended) at song 0, line 0, a 17-byte buffer, plus the
spec's three-line example on the text `A\nBB\nCCC`. -/
theorem c5_witness :
    1 ≤ 17 ∧ 17 ≤ (List.replicate 17 (Char.ofNat 120)).length
    ∧ (((getLyricLine 0 0 17 (List.replicate 17 (Char.ofNat 120))).1 = true
          ↔ lineExists (getLyricsPtr 0) 0)
      ∧ cString (getLyricLine 0 0 17 (List.replicate 17 (Char.ofNat 120))).2
          = (match getLyricsPtr 0 with
             | none => []
             | some cs =>
                 if 0 ≤ countNL (effChars cs)
                 then (lineAt 0 (effChars cs)).take (17 - 1)
                 else [])
      ∧ (∀ b : List Char, getLyricLine 0 0 0 b = (false, b)))
    ∧ (extractLine (some ("A\nBB\nCCC".toList)) 0 17
        (List.replicate 17 (Char.ofNat 120))).1 = true
    ∧ cString (extractLine (some ("A\nBB\nCCC".toList)) 0 17
        (List.replicate 17 (Char.ofNat 120))).2 = "A".toList
    ∧ (extractLine (some ("A\nBB\nCCC".toList)) 2 17
        (List.replicate 17 (Char.ofNat 120))).1 = true
    ∧ cString (extractLine (some ("A\nBB\nCCC".toList)) 2 17
        (List.replicate 17 (Char.ofNat 120))).2 = "CCC".toList
    ∧ (extractLine (some ("A\nBB\nCCC".toList)) 3 17
        (List.replicate 17 (Char.ofNat 120))).1 = false
    ∧ cString (extractLine (some ("A\nBB\nCCC".toList)) 3 17
        (List.replicate 17 (Char.ofNat 120))).2 = [] :=
  ⟨by decide, by decide,
    c5_extract_amended 0 0 17 (List.replicate 17 (Char.ofNat 120)) (by decide) (by decide),
    by decide, by decide, by decide, by decide, by decide, by decide⟩

/-- C8: buffer safety of the extractor.  For `outSize ≥ 1` and a buffer of
at least `outSize` cells, the cells at index `outSize` and beyond are left
unchanged (no write occurs at or beyond `outSize`), the stored string
holds at most `outSize - 1` characters before its terminator, and a line
longer than `outSize - 1` characters is truncated to exactly the first
`outSize - 1` characters plus terminator. -/
theorem c8_truncation (songIdx target sz : Nat) (buf : List Char)
    (h1 : 1 ≤ sz) (h2 : sz ≤ buf.length) :
    (getLyricLine songIdx target sz buf).2.drop sz = buf.drop sz
      ∧ (cString (getLyricLine songIdx target sz buf).2).length ≤ sz - 1
      ∧ ∀ cs, getLyricsPtr songIdx = some cs →
          target ≤ countNL (effChars cs) →
          sz - 1 < (lineAt target (effChars cs)).length →
          cString (getLyricLine songIdx target sz buf).2
              = (lineAt target (effChars cs)).take (sz - 1)
            ∧ (cString (getLyricLine songIdx target sz buf).2).length = sz - 1 := by
  refine ⟨extractLine_frame _ _ _ _, ?_, ?_⟩
  · unfold getLyricLine
    cases hp : getLyricsPtr songIdx with
    | none =>
        unfold extractLine
        rw [if_neg (by omega)]
        rw [cString_set_zero buf (by
          intro hnil
          have := congrArg List.length hnil
          simp only [List.length_nil] at this
          omega)]
        simp
    | some cs =>
        rw [extractLine_some_cString cs target sz buf h1 h2]
        split
        · simp [List.length_take]
        · simp
  · intro cs hcs hex hlong
    unfold getLyricLine
    rw [hcs]
    rw [extractLine_some_cString cs target sz buf h1 h2, if_pos hex]
    refine ⟨rfl, ?_⟩
    simp [List.length_take]
    omega

/-- Witness for C8 at song 0, line 0, `outSize = 3` on a 17-cell buffer
(line 0 of song 0 has 14 characters, so it is truncated to 2). -/
theorem c8_witness :
    1 ≤ 3 ∧ 3 ≤ (List.replicate 17 (Char.ofNat 120)).length
    ∧ ((getLyricLine 0 0 3 (List.replicate 17 (Char.ofNat 120))).2.drop 3
          = (List.replicate 17 (Char.ofNat 120)).drop 3
      ∧ (cString (getLyricLine 0 0 3 (List.replicate 17 (Char.ofNat 120))).2).length ≤ 3 - 1
      ∧ ∀ cs, getLyricsPtr 0 = some cs →
          0 ≤ countNL (effChars cs) →
          3 - 1 < (lineAt 0 (effChars cs)).length →
          cString (getLyricLine 0 0 3 (List.replicate 17 (Char.ofNat 120))).2
              = (lineAt 0 (effChars cs)).take (3 - 1)
            ∧ (cString (getLyricLine 0 0 3 (List.replicate 17 (Char.ofNat 120))).2).length
              = 3 - 1) :=
  ⟨by decide, by decide,
    c8_truncation 0 0 3 (List.replicate 17 (Char.ofNat 120)) (by decide) (by decide)⟩

/-! Lemmas about the playback engine trace: counts and final sink state. -/

theorem runState_append (a b : List Ev) (st : Bool × List Bool) :
    runState (a ++ b) st = runState b (runState a st) :=
  List.foldl_append applyEv st a b

theorem applyEv_sndLength (st : Bool × List Bool) (e : Ev) :
    (applyEv st e).2.length = st.2.length := by
  cases e <;> simp [applyEv]

theorem runState_sndLength (evs : List Ev) :
    ∀ st : Bool × List Bool, (runState evs st).2.length = st.2.length := by
  induction evs with
  | nil => intro st; rfl
  | cons e evs ih =>
      intro st
      rw [show runState (e :: evs) st = runState evs (applyEv st e) from rfl, ih]
      exact applyEv_sndLength st e

theorem leds_of_length_five (l : List Bool) (h : l.length = 5) :
    ∃ b0 b1 b2 b3 b4, l = [b0, b1, b2, b3, b4] := by
  rcases l with _ | ⟨b0, l⟩
  · simp only [List.length_nil] at h
    omega
  rcases l with _ | ⟨b1, l⟩
  · simp only [List.length_cons, List.length_nil] at h
    omega
  rcases l with _ | ⟨b2, l⟩
  · simp only [List.length_cons, List.length_nil] at h
    omega
  rcases l with _ | ⟨b3, l⟩
  · simp only [List.length_cons, List.length_nil] at h
    omega
  rcases l with _ | ⟨b4, l⟩
  · simp only [List.length_cons, List.length_nil] at h
    omega
  rcases l with _ | ⟨b5, l⟩
  · exact ⟨b0, b1, b2, b3, b4, rfl⟩
  · simp only [List.length_cons] at h
    omega

theorem runState_post (tn : Bool) (l : List Bool) (h : l.length = 5)
    (a b : List Char) (m : String) (d : Nat) :
    runState ([Ev.toneStop] ++ allLEDsOffEv
        ++ [Ev.lcdClear, Ev.lcdRow 0 a, Ev.lcdRow 1 b, Ev.serialLine m, Ev.delayMs d])
      (tn, l) = (false, List.replicate 5 false) := by
  obtain ⟨b0, b1, b2, b3, b4, rfl⟩ := leds_of_length_five l h
  rfl

theorem countDelays_append (a b : List Ev) :
    countDelays (a ++ b) = countDelays a + countDelays b :=
  List.countP_append _ a b

theorem countLedOns_append (a b : List Ev) :
    countLedOns (a ++ b) = countLedOns a + countLedOns b :=
  List.countP_append _ a b

theorem countDelays_lcdUpdate (s : Song) (n : Nat) (last : Int) (top bot : List Char) :
    countDelays (lcdUpdate s n last top bot).evs = 0 := by
  rcases lcdUpdate_evs_shape s n last top bot with h | ⟨a, b, h⟩ <;> rw [h] <;> rfl

theorem countLedOns_lcdUpdate (s : Song) (n : Nat) (last : Int) (top bot : List Char) :
    countLedOns (lcdUpdate s n last top bot).evs = 0 := by
  rcases lcdUpdate_evs_shape s n last top bot with h | ⟨a, b, h⟩ <;> rw [h] <;> rfl

theorem countDelays_step (s : Song) (u n : Nat) :
    countDelays (stepPlayEvs s u n) = 2 := by
  unfold stepPlayEvs
  dsimp only
  split <;> rfl

theorem countLedOns_step (s : Song) (u n : Nat) :
    countLedOns (stepPlayEvs s u n) = if s.notes.getD n 0 ≠ 0 then 1 else 0 := by
  unfold stepPlayEvs
  dsimp only
  split <;> simp_all <;> rfl

theorem countDelays_playLoop (s : Song) (u : Nat) :
    ∀ fuel n last top bot, countDelays (playLoop s u fuel n last top bot) = 2 * fuel := by
  intro fuel
  induction fuel with
  | zero => intro n last top bot; rfl
  | succ fuel ih =>
      intro n last top bot
      simp only [playLoop]
      rw [countDelays_append, countDelays_append, countDelays_lcdUpdate,
        countDelays_step, ih]
      omega

theorem countLedOns_playLoop (s : Song) (u : Nat) :
    ∀ fuel n last top bot,
      countLedOns (playLoop s u fuel n last top bot) = nonRestFrom s.notes n fuel := by
  intro fuel
  induction fuel with
  | zero => intro n last top bot; rfl
  | succ fuel ih =>
      intro n last top bot
      simp only [playLoop]
      rw [countLedOns_append, countLedOns_append, countLedOns_lcdUpdate,
        countLedOns_step, ih]
      simp only [nonRestFrom]
      omega

/-- C4: a playable song plays to completion.  The trace performs exactly
`trueLength` per-note iterations (two blocking delays per note, plus one
in the banner and one in the completion screen), lights the clamped LED
exactly once per non-rest note, and at completion the tone is stopped and
all five indicator LEDs are off, whatever sink state playback started
from. -/
theorem c4_playSong_completion (s : Song) (hl : 0 < s.len) (hb : 0 < s.bpm)
    (tn : Bool) (l : List Bool) (hlen : l.length = 5) :
    runState (playSong s) (tn, l) = (false, List.replicate 5 false)
      ∧ countDelays (playSong s) = 2 * s.len.toNat + 2
      ∧ countLedOns (playSong s) = nonRestCount s.notes s.len.toNat := by
  have hcond : ¬(s.len ≤ 0 ∨ s.bpm ≤ 0) := by
    rintro (h | h) <;> omega
  have hps : playSong s
      = (([Ev.lcdClear, Ev.lcdRow 0 (lcdFixed "Now Playing:".toList)]
            ++ (match s.banner with
                | some txt => [Ev.lcdRow 1 (lcdFixed txt.toList)]
                | none => [])
            ++ [Ev.delayMs 900, Ev.lcdClear]
            ++ allLEDsOffEv ++ [Ev.toneStop])
          ++ playLoop s (eighthMs s.bpm.toNat) s.len.toNat 0 (-999)
              (List.replicate 17 nulChar) (List.replicate 17 nulChar))
        ++ ([Ev.toneStop] ++ allLEDsOffEv
            ++ [Ev.lcdClear, Ev.lcdRow 0 (lcdFixed "Song Complete!".toList),
                Ev.lcdRow 1 (lcdFixed "Choose another!".toList),
                Ev.serialLine "Song Complete!", Ev.delayMs 1200]) := by
    unfold playSong
    rw [if_neg hcond]
  refine ⟨?_, ?_, ?_⟩
  · rw [hps, runState_append]
    have key : ∀ st : Bool × List Bool, st.2.length = 5 →
        runState ([Ev.toneStop] ++ allLEDsOffEv
            ++ [Ev.lcdClear, Ev.lcdRow 0 (lcdFixed "Song Complete!".toList),
                Ev.lcdRow 1 (lcdFixed "Choose another!".toList),
                Ev.serialLine "Song Complete!", Ev.delayMs 1200]) st
          = (false, List.replicate 5 false) := by
      intro st hst
      obtain ⟨t1, l1⟩ := st
      exact runState_post t1 l1 hst _ _ _ _
    apply key
    rw [runState_sndLength]
    exact hlen
  · rw [hps]
    rw [countDelays_append, countDelays_append, countDelays_playLoop]
    have hA : countDelays ([Ev.lcdClear, Ev.lcdRow 0 (lcdFixed "Now Playing:".toList)]
          ++ (match s.banner with
              | some txt => [Ev.lcdRow 1 (lcdFixed txt.toList)]
              | none => [])
          ++ [Ev.delayMs 900, Ev.lcdClear]
          ++ allLEDsOffEv ++ [Ev.toneStop]) = 1 := by
      cases s.banner <;> rfl
    rw [hA]
    have hC : countDelays ([Ev.toneStop] ++ allLEDsOffEv
        ++ [Ev.lcdClear, Ev.lcdRow 0 (lcdFixed "Song Complete!".toList),
            Ev.lcdRow 1 (lcdFixed "Choose another!".toList),
            Ev.serialLine "Song Complete!", Ev.delayMs 1200]) = 1 := rfl
    rw [hC]
    omega
  · rw [hps]
    rw [countLedOns_append, countLedOns_append, countLedOns_playLoop]
    have hA : countLedOns ([Ev.lcdClear, Ev.lcdRow 0 (lcdFixed "Now Playing:".toList)]
          ++ (match s.banner with
              | some txt => [Ev.lcdRow 1 (lcdFixed txt.toList)]
              | none => [])
          ++ [Ev.delayMs 900, Ev.lcdClear]
          ++ allLEDsOffEv ++ [Ev.toneStop]) = 0 := by
      cases s.banner <;> rfl
    rw [hA]
    have hC : countLedOns ([Ev.toneStop] ++ allLEDsOffEv
        ++ [Ev.lcdClear, Ev.lcdRow 0 (lcdFixed "Song Complete!".toList),
            Ev.lcdRow 1 (lcdFixed "Choose another!".toList),
            Ev.serialLine "Song Complete!", Ev.delayMs 1200]) = 0 := rfl
    rw [hC]
    simp [nonRestCount]

/-- Concrete three-note all-non-rest song used to witness C4. -/
def threeNoteSong : Song :=
  { notes := [440, 494, 523]
    durations := [1, 1, 1]
    leds := [0, 1, 2]
    len := 3
    bpm := 120
    lyrics := some ("hi\nyo".toList)
    lineCounts := [2, 1, 0]
    banner := some "Tiny" }

/-- Witness for C4: the three-note song yields exactly 3 light cycles
(8 delays = 2 per note + banner + completion) and ends with the tone off
and all LEDs off. -/
theorem c4_witness :
    0 < threeNoteSong.len ∧ 0 < threeNoteSong.bpm
      ∧ (List.replicate 5 true).length = 5
      ∧ (runState (playSong threeNoteSong) (true, List.replicate 5 true)
            = (false, List.replicate 5 false)
        ∧ countDelays (playSong threeNoteSong) = 2 * threeNoteSong.len.toNat + 2
        ∧ countLedOns (playSong threeNoteSong)
            = nonRestCount threeNoteSong.notes threeNoteSong.len.toNat)
      ∧ nonRestCount threeNoteSong.notes threeNoteSong.len.toNat = 3
      ∧ countDelays (playSong threeNoteSong) = 8 :=
  ⟨by decide, by decide, by decide,
    c4_playSong_completion threeNoteSong (by decide) (by decide) true
      (List.replicate 5 true) (by decide),
    by decide, by decide⟩

end Karaoke
